/-
Verification of the eshu-trace core: package diffing, version comparison,
bisection engine and remediation planner.

The Lean definitions below are a shallow embedding of the Rust sources:
  src/package_diff.rs  (Package, PackageChange, PackageDiff, compute_diff,
                        version_compare, all_changes, total_changes)
  src/bisect.rs        (BisectSession, new, run_manual, run_automated)
  src/fixer.rs         (FixAction, get_fix_options)

Modelling conventions:
  * Rust HashMap<String, String> becomes an association list
    (List (String × String)); well-formedness (unique keys, as a HashMap
    guarantees) is the hypothesis (keys m).Nodup where needed.
  * usize arithmetic becomes Nat; Rust's `high - 1` on usize appears as
    truncated Nat subtraction, which agrees with Rust on every reachable
    state (high ≥ 1 throughout a session).
  * The `while` loop of run_manual is embedded with an explicit fuel
    argument (structural recursion); fuel `high - low` is provably enough,
    so the embedding computes and equals the Rust loop on all inputs.
  * Interactive prompts (dialoguer::Confirm) are modelled as a pure oracle
    `Nat → Bool` giving the answer for a given `mid`; printing is dropped.
-/
import Mathlib

namespace EshuTrace

/-! ## Data model (src/package_diff.rs lines 9-46, src/fixer.rs lines 15-22) -/

/-- `Package` from src/package_diff.rs: a name together with a version string. -/
structure Package where
  name : String
  version : String
deriving Repr, DecidableEq

/-- `PackageChange` from src/package_diff.rs: the four change kinds.
For Upgraded/Downgraded the two strings are old_version, new_version. -/
inductive PackageChange where
  | Added : Package → PackageChange
  | Removed : Package → PackageChange
  | Upgraded : Package → String → String → PackageChange
  | Downgraded : Package → String → String → PackageChange
deriving Repr, DecidableEq

/-- `PackageChange::name` from src/package_diff.rs lines 30-37. -/
def PackageChange.name : PackageChange → String
  | .Added pkg => pkg.name
  | .Removed pkg => pkg.name
  | .Upgraded pkg _ _ => pkg.name
  | .Downgraded pkg _ _ => pkg.name

/-- `PackageDiff` from src/package_diff.rs lines 40-46. -/
structure PackageDiff where
  added : List Package
  removed : List Package
  upgraded : List (Package × String × String)
  downgraded : List (Package × String × String)
deriving Repr, DecidableEq

/-- `PackageDiff::total_changes` from src/package_diff.rs lines 49-51. -/
def PackageDiff.total_changes (d : PackageDiff) : Nat :=
  d.added.length + d.removed.length + d.upgraded.length + d.downgraded.length

/-- `PackageDiff::all_changes` from src/package_diff.rs lines 53-81: an
accumulator is pushed onto by four `for` loops, one per collection, in the
fixed order added, removed, upgraded, downgraded. -/
def PackageDiff.all_changes (d : PackageDiff) : List PackageChange :=
  let changes : List PackageChange := []
  let changes := d.added.foldl (fun cs pkg => cs ++ [PackageChange.Added pkg]) changes
  let changes := d.removed.foldl (fun cs pkg => cs ++ [PackageChange.Removed pkg]) changes
  let changes := d.upgraded.foldl
    (fun cs t => cs ++ [PackageChange.Upgraded t.1 t.2.1 t.2.2]) changes
  let changes := d.downgraded.foldl
    (fun cs t => cs ++ [PackageChange.Downgraded t.1 t.2.1 t.2.2]) changes
  changes

/-- `FixAction` from src/fixer.rs lines 16-22. -/
inductive FixAction where
  | Downgrade : String → String → FixAction
  | Remove : String → FixAction
  | Pin : String → String → FixAction
  | ReportBug : String → FixAction
  | DoNothing : FixAction
deriving Repr, DecidableEq

/-! ## Version comparator (src/package_diff.rs lines 209-232) -/

/-- The delimiter set of `v.split(&['.', '-', '_'][..])`. -/
def isDelim (c : Char) : Bool :=
  c = '.' || c = '-' || c = '_'

/-- Rust `str::split` on the delimiter set, producing the tokens in order and
keeping empty tokens exactly as Rust does (the accumulator holds the current
token reversed). -/
def splitTokens : List Char → List Char → List (List Char)
  | [], acc => [acc.reverse]
  | c :: cs, acc =>
    if isDelim c then acc.reverse :: splitTokens cs [] else splitTokens cs (c :: acc)

/-- Decimal value of a digit string. -/
def digitsToNat (cs : List Char) : Nat :=
  cs.foldl (fun a c => a * 10 + (c.toNat - 48)) 0

/-- Rust `s.parse::<u32>().ok()`: an optional leading plus sign, then one or
more ASCII digits, failing on any other character and on overflow past
u32::MAX (so the parse succeeds exactly when the value fits in 32 bits). -/
def parseU32 (s : List Char) : Option Nat :=
  let t := match s with
    | '+' :: rest => rest
    | _ => s
  if !t.isEmpty && t.all Char.isDigit then
    let n := digitsToNat t
    if n < 4294967296 then some n else none
  else none

/-- The `parts` computation of `version_compare` (src/package_diff.rs lines
213-221): split on the delimiters and keep the tokens that parse as u32. -/
def numericParts (v : String) : List Nat :=
  (splitTokens v.data []).filterMap parseU32

/-- The `for (a, b) in parts1.iter().zip(parts2.iter())` loop of
`version_compare` (lines 223-229): first strictly-greater pair returns true,
first strictly-smaller pair returns false, otherwise fall through. -/
def zipCompare : List (Nat × Nat) → Option Bool
  | [] => none
  | (a, b) :: rest =>
    if a > b then some true
    else if a < b then some false
    else zipCompare rest

/-- `version_compare` from src/package_diff.rs lines 209-232: compare the
numeric token sequences pairwise; if the zipped prefix is all-equal the
longer sequence wins (`parts1.len() > parts2.len()`). -/
def version_compare (v1 v2 : String) : Bool :=
  let parts1 := numericParts v1
  let parts2 := numericParts v2
  match zipCompare (parts1.zip parts2) with
  | some r => r
  | none => decide (parts1.length > parts2.length)

/-- The spec's name for the comparator: `is_upgrade(candidate, baseline)` is
`version_compare(ver2, ver1)` as called at src/package_diff.rs line 124 with
candidate = ver2 (the newer state's version) and baseline = ver1. -/
def is_upgrade (candidate baseline : String) : Bool :=
  version_compare candidate baseline

example : is_upgrade ("2.0") ("1.9") = true := by decide
example : is_upgrade ("1.9") ("2.0") = false := by decide
example : is_upgrade ("1.2.0") ("1.2") = true := by decide
example : is_upgrade ("1.0-rc1") ("1.0") = false := by decide

/-! ## Package differ (src/package_diff.rs lines 84-138) -/

/-- A snapshot's package map, `HashMap<String, String>` in the source
(name → version).  Modelled as an association list; the HashMap guarantee of
unique keys is the hypothesis `(keys m).Nodup` on the relevant theorems. -/
abbrev PkgMap := List (String × String)

/-- The key set of a package map. -/
def keys (m : PkgMap) : List String :=
  m.map Prod.fst

/-- The `keys1.intersection(&keys2)` loop of `compute_diff` (src/package_diff.rs
lines 113-130) restricted to the names whose versions differ: each entry is
(name, ver1, ver2) with ver1 the version in `packages1` and ver2 the version
in `packages2`. -/
def commonChanged (packages1 packages2 : PkgMap) : List (String × String × String) :=
  packages1.filterMap (fun p =>
    match packages2.lookup p.1 with
    | some ver2 => if p.2 = ver2 then none else some (p.1, p.2, ver2)
    | none => none)

/-- `compute_diff` from src/package_diff.rs lines 84-138.  The source's
HashSet difference / intersection iterations become list filters (same
contents; HashMap iteration order is arbitrary anyway, and no claim depends
on the order).  The single pass over the common names pushing into the
`upgraded` or `downgraded` vector according to `version_compare(ver2, ver1)`
becomes the corresponding pair of filters over `commonChanged`.  In the
source the snapshots' maps are obtained by `get_packages_for_snapshot`,
which returns the stored `snapshot.packages` when present (the case modelled
here) and only falls back to probing the live system otherwise. -/
def compute_diff (packages1 packages2 : PkgMap) : PackageDiff :=
  let added : List Package :=
    (packages2.filter (fun p => (packages1.lookup p.1).isNone)).map
      (fun p => { name := p.1, version := p.2 })
  let removed : List Package :=
    (packages1.filter (fun p => (packages2.lookup p.1).isNone)).map
      (fun p => { name := p.1, version := p.2 })
  let common := commonChanged packages1 packages2
  let upgraded : List (Package × String × String) :=
    (common.filter (fun t => version_compare t.2.2 t.2.1)).map
      (fun t => ({ name := t.1, version := t.2.2 }, t.2.1, t.2.2))
  let downgraded : List (Package × String × String) :=
    (common.filter (fun t => !version_compare t.2.2 t.2.1)).map
      (fun t => ({ name := t.1, version := t.2.2 }, t.2.1, t.2.2))
  { added := added, removed := removed, upgraded := upgraded, downgraded := downgraded }

/-! ## Bisection engine (src/bisect.rs) -/

/-- `BisectSession` from src/bisect.rs lines 9-17 (the two snapshot fields
carry no further information once the change list is built and are dropped
from the model). -/
structure BisectSession where
  package_changes : List PackageChange
  current_low : Nat
  current_high : Nat
  current_mid : Nat
  found_culprit : Option PackageChange
deriving Repr, DecidableEq

/-- The field initialisation of `BisectSession::new` (src/bisect.rs lines
30-38): cursor (0, total, total / 2), no culprit yet. -/
def initSession (changes : List PackageChange) : BisectSession :=
  { package_changes := changes
    current_low := 0
    current_high := changes.length
    current_mid := changes.length / 2
    found_culprit := none }

/-- `BisectSession::new` from src/bisect.rs lines 20-39: diff the two
snapshots, linearize, and bail out on an empty change list. -/
def BisectSession.new (good_snapshot bad_snapshot : PkgMap) :
    Except String BisectSession :=
  let package_changes := (compute_diff good_snapshot bad_snapshot).all_changes
  if package_changes.isEmpty then
    Except.error ("No package changes detected between snapshots")
  else
    Except.ok (initSession package_changes)

/-- The `while self.current_low < self.current_high - 1` loop of `run_manual`
(src/bisect.rs lines 57-111), embedded with an explicit fuel argument so that
it is structurally recursive and computable by the kernel.  State is
(low, high, mid); the result also carries the number of oracle answers
consumed.  Fuel `high - low` is enough, since the interval shrinks by at
least one per iteration (see the loop lemmas below, whose inductions carry
the bound high - low ≤ fuel). -/
def bisectLoopF (oracle : Nat → Bool) : Nat → Nat → Nat → Nat → (Nat × Nat × Nat) × Nat
  | 0, low, high, mid => ((low, high, mid), 0)
  | fuel + 1, low, high, mid =>
    if low < high - 1 then
      let m := (low + high) / 2
      if oracle m then
        let r := bisectLoopF oracle fuel low m m
        (r.1, r.2 + 1)
      else
        let r := bisectLoopF oracle fuel m high m
        (r.1, r.2 + 1)
    else ((low, high, mid), 0)

/-- The bisection loop run to completion from a given cursor. -/
def bisectLoop (oracle : Nat → Bool) (low high mid : Nat) : (Nat × Nat × Nat) × Nat :=
  bisectLoopF oracle (high - low) low high mid

/-- Ghost trace of the loop: the list of (low, high) cursor states it visits,
the state before each oracle answer followed by the terminal state.  Its
length is one more than the number of oracle answers. -/
def bisectTraceF (oracle : Nat → Bool) : Nat → Nat → Nat → List (Nat × Nat)
  | 0, low, high => [(low, high)]
  | fuel + 1, low, high =>
    if low < high - 1 then
      let m := (low + high) / 2
      (low, high) ::
        (if oracle m then bisectTraceF oracle fuel low m
         else bisectTraceF oracle fuel m high)
    else [(low, high)]

/-- The trace of the loop run to completion from a given cursor. -/
def bisectTrace (oracle : Nat → Bool) (low high : Nat) : List (Nat × Nat) :=
  bisectTraceF oracle (high - low) low high

/-- `BisectSession::run_manual` from src/bisect.rs lines 45-156: run the
bisection loop from the current cursor, then (guarded by
`current_low < package_changes.len()`) record `package_changes[current_low]`
as the found culprit.  The interactive `Confirm` prompt at each step is the
oracle; all printing is dropped. -/
def BisectSession.run_manual (s : BisectSession) (oracle : Nat → Bool) : BisectSession :=
  let r := (bisectLoop oracle s.current_low s.current_high s.current_mid).1
  let s1 := { s with current_low := r.1, current_high := r.2.1, current_mid := r.2.2 }
  if h : s1.current_low < s1.package_changes.length then
    { s1 with found_culprit := some (s1.package_changes.get ⟨s1.current_low, h⟩) }
  else s1

/-- `BisectSession::run_automated` from src/bisect.rs lines 158-170: after
printing a feature description it unconditionally bails; no bisection step is
ever taken and the session is left untouched. -/
def BisectSession.run_automated (_s : BisectSession) : Except String Unit :=
  Except.error ("Automated bisect requires Premium license")

/-! ## Remediation planner (src/fixer.rs lines 74-100) -/

/-- `PackageFixer::get_fix_options` from src/fixer.rs lines 74-100 (the
spec's `candidate_actions`): per-variant pushes followed by the final
`DoNothing` push. -/
def get_fix_options (culprit : PackageChange) : List FixAction :=
  let options : List FixAction :=
    match culprit with
    | .Added pkg => [.Remove pkg.name, .ReportBug pkg.name]
    | .Removed pkg => [.ReportBug pkg.name]
    | .Upgraded pkg old_ver _new_ver =>
      [.Downgrade pkg.name old_ver, .Pin pkg.name old_ver,
       .Remove pkg.name, .ReportBug pkg.name]
    | .Downgraded pkg _old_ver new_ver => [.Pin pkg.name new_ver, .ReportBug pkg.name]
  options ++ [.DoNothing]

/-! ## Spec-side definitions

These follow the words of the specification (and of the claims), to be
compared against the source-derived definitions above. -/

/-- The ordering the spec describes for numeric version-token sequences
(spec section 4.1, read with the baseline's sequence on the left): the first
differing pair decides, equal heads recurse, and at an all-equal prefix the
strictly longer sequence is greater. -/
inductive VerLt : List Nat → List Nat → Prop
  | nil (b : Nat) (bs : List Nat) : VerLt [] (b :: bs)
  | head {a b : Nat} (as bs : List Nat) : a < b → VerLt (a :: as) (b :: bs)
  | tail {a b : Nat} {as bs : List Nat} : a = b → VerLt as bs → VerLt (a :: as) (b :: bs)

/-- Integer-token parse as claim C3 words it, with no magnitude bound: an
optional leading plus sign then one or more digits, never failing on
overflow. -/
def parseNatAny (s : List Char) : Option Nat :=
  let t := match s with
    | '+' :: rest => rest
    | _ => s
  if !t.isEmpty && t.all Char.isDigit then some (digitsToNat t) else none

/-- The token sequence claim C3 describes: every token that parses as a
non-negative integer of any magnitude is kept. -/
def claimNumericParts (v : String) : List Nat :=
  (splitTokens v.data []).filterMap parseNatAny

/-- The comparator exactly as claim C3 states it: tokenize, keep numeric
tokens of any magnitude, first differing pair decides, longer wins at an
all-equal zipped prefix. -/
def claim_is_upgrade (candidate baseline : String) : Bool :=
  let parts1 := claimNumericParts candidate
  let parts2 := claimNumericParts baseline
  match zipCompare (parts1.zip parts2) with
  | some r => r
  | none => decide (parts1.length > parts2.length)

/-- The remediation table exactly as the spec (section 4.5) and claim C6
state it: the per-kind candidate list, followed in every case by ReportBug
on the change's package name and then DoNothing. -/
def claimed_actions (change : PackageChange) : List FixAction :=
  (match change with
   | .Added pkg => [.Remove pkg.name]
   | .Removed _ => []
   | .Upgraded pkg old _ => [.Downgrade pkg.name old, .Pin pkg.name old, .Remove pkg.name]
   | .Downgraded pkg _ new => [.Pin pkg.name new]) ++
  [.ReportBug change.name, .DoNothing]

/-! ## Lookup lemmas for association-list package maps -/

theorem lookup_isSome_iff (m : PkgMap) (n : String) :
    (m.lookup n).isSome = true ↔ n ∈ keys m := by
  induction m with
  | nil => simp [keys, List.lookup]
  | cons p ps ih =>
    cases p with
    | mk k v =>
      simp only [List.lookup, keys, List.map_cons, List.mem_cons]
      by_cases h : n = k
      · simp [h]
      · have hbeq : (n == k) = false := by
          simp [beq_eq_false_iff_ne, h]
        simp [hbeq, h, ih, keys]

theorem lookup_eq_none_iff (m : PkgMap) (n : String) :
    m.lookup n = none ↔ n ∉ keys m := by
  rw [← lookup_isSome_iff]
  cases h : m.lookup n <;> simp [h]

theorem lookup_mem {m : PkgMap} {n v : String} (h : m.lookup n = some v) :
    (n, v) ∈ m := by
  induction m with
  | nil => simp [List.lookup] at h
  | cons p ps ih =>
    cases p with
    | mk k w =>
      simp only [List.lookup] at h
      by_cases hk : (n == k) = true
      · simp only [hk, if_pos rfl] at h
        simp at hk
        cases h
        simp [hk]
      · rw [Bool.not_eq_true] at hk
        rw [hk] at h
        simp only [List.mem_cons]
        exact Or.inr (ih h)

theorem mem_lookup {m : PkgMap} (hm : (keys m).Nodup) {n v : String}
    (h : (n, v) ∈ m) : m.lookup n = some v := by
  induction m with
  | nil => simp at h
  | cons p ps ih =>
    cases p with
    | mk k w =>
      simp only [keys, List.map_cons, List.nodup_cons] at hm
      simp only [List.mem_cons] at h
      rcases h with h | h
      · cases h
        simp [List.lookup]
      · have hnk : n ≠ k := by
          intro hkeq
          exact hm.1 (hkeq ▸ (List.mem_map.mpr ⟨(n, v), h, rfl⟩))
        have hbeq : (n == k) = false := by
          simp [beq_eq_false_iff_ne, hnk]
        simp only [List.lookup, hbeq]
        exact ih hm.2 h

theorem mem_keys {m : PkgMap} {n : String} : n ∈ keys m ↔ ∃ v, (n, v) ∈ m := by
  constructor
  · intro h
    rcases List.mem_map.mp h with ⟨p, hp, hfst⟩
    subst hfst
    exact ⟨p.2, hp⟩
  · rintro ⟨v, hv⟩
    exact List.mem_map.mpr ⟨(n, v), hv, rfl⟩

/-! ## Membership characterisations of the diff collections -/

theorem commonChanged_mem {A B : PkgMap} {n v1 v2 : String} :
    (n, v1, v2) ∈ commonChanged A B ↔
      (n, v1) ∈ A ∧ B.lookup n = some v2 ∧ v1 ≠ v2 := by
  simp only [commonChanged, List.mem_filterMap]
  constructor
  · rintro ⟨p, hp, hf⟩
    split at hf
    case h_1 w hlook =>
      by_cases heq : p.2 = w
      · rw [if_pos heq] at hf
        cases hf
      · rw [if_neg heq] at hf
        injection hf with hf1
        injection hf1 with e1 hf2
        injection hf2 with e2 e3
        subst e1
        subst e2
        subst e3
        exact ⟨hp, hlook, heq⟩
    case h_2 hlook =>
      cases hf
  · rintro ⟨hmem, hlook, hne⟩
    refine ⟨(n, v1), hmem, ?_⟩
    show (match B.lookup n with
      | some ver2 => if v1 = ver2 then none else some (n, v1, ver2)
      | none => none) = some (n, v1, v2)
    rw [hlook]
    exact if_neg hne

theorem commonChanged_mem_iff {A B : PkgMap} (hA : (keys A).Nodup)
    {n v1 v2 : String} :
    (n, v1, v2) ∈ commonChanged A B ↔
      A.lookup n = some v1 ∧ B.lookup n = some v2 ∧ v1 ≠ v2 := by
  rw [commonChanged_mem]
  constructor
  · rintro ⟨hmem, h2, h3⟩
    exact ⟨mem_lookup hA hmem, h2, h3⟩
  · rintro ⟨h1, h2, h3⟩
    exact ⟨lookup_mem h1, h2, h3⟩

theorem added_eq (A B : PkgMap) :
    (compute_diff A B).added =
      (B.filter (fun p => (A.lookup p.1).isNone)).map
        (fun p => { name := p.1, version := p.2 }) := rfl

theorem removed_eq (A B : PkgMap) :
    (compute_diff A B).removed =
      (A.filter (fun p => (B.lookup p.1).isNone)).map
        (fun p => { name := p.1, version := p.2 }) := rfl

theorem upgraded_eq (A B : PkgMap) :
    (compute_diff A B).upgraded =
      ((commonChanged A B).filter (fun t => version_compare t.2.2 t.2.1)).map
        (fun t => ({ name := t.1, version := t.2.2 }, t.2.1, t.2.2)) := rfl

theorem downgraded_eq (A B : PkgMap) :
    (compute_diff A B).downgraded =
      ((commonChanged A B).filter (fun t => !version_compare t.2.2 t.2.1)).map
        (fun t => ({ name := t.1, version := t.2.2 }, t.2.1, t.2.2)) := rfl

theorem mem_added_name {A B : PkgMap} {n : String} :
    n ∈ (compute_diff A B).added.map Package.name ↔
      n ∈ keys B ∧ n ∉ keys A := by
  rw [added_eq]
  constructor
  · intro h
    rcases List.mem_map.mp h with ⟨pkg, hpkg, hname⟩
    rcases List.mem_map.mp hpkg with ⟨p, hpf, hmk⟩
    rcases List.mem_filter.mp hpf with ⟨hpB, hnone⟩
    have hn : p.1 = n := by rw [← hmk] at hname; exact hname
    subst hn
    refine ⟨mem_keys.mpr ⟨p.2, hpB⟩, ?_⟩
    rw [← lookup_eq_none_iff, ← Option.isNone_iff_eq_none]
    exact hnone
  · rintro ⟨hB, hnA⟩
    rcases mem_keys.mp hB with ⟨v, hv⟩
    refine List.mem_map.mpr ⟨{ name := n, version := v }, ?_, rfl⟩
    refine List.mem_map.mpr ⟨(n, v), ?_, rfl⟩
    refine List.mem_filter.mpr ⟨hv, ?_⟩
    rw [Option.isNone_iff_eq_none]
    exact (lookup_eq_none_iff A n).mpr hnA

theorem mem_removed_name {A B : PkgMap} {n : String} :
    n ∈ (compute_diff A B).removed.map Package.name ↔
      n ∈ keys A ∧ n ∉ keys B := by
  rw [removed_eq]
  constructor
  · intro h
    rcases List.mem_map.mp h with ⟨pkg, hpkg, hname⟩
    rcases List.mem_map.mp hpkg with ⟨p, hpf, hmk⟩
    rcases List.mem_filter.mp hpf with ⟨hpA, hnone⟩
    have hn : p.1 = n := by rw [← hmk] at hname; exact hname
    subst hn
    refine ⟨mem_keys.mpr ⟨p.2, hpA⟩, ?_⟩
    rw [← lookup_eq_none_iff, ← Option.isNone_iff_eq_none]
    exact hnone
  · rintro ⟨hA, hnB⟩
    rcases mem_keys.mp hA with ⟨v, hv⟩
    refine List.mem_map.mpr ⟨{ name := n, version := v }, ?_, rfl⟩
    refine List.mem_map.mpr ⟨(n, v), ?_, rfl⟩
    refine List.mem_filter.mpr ⟨hv, ?_⟩
    rw [Option.isNone_iff_eq_none]
    exact (lookup_eq_none_iff B n).mpr hnB

theorem mem_upgraded_iff {A B : PkgMap} (hA : (keys A).Nodup)
    {pkg : Package} {o w : String} :
    (pkg, o, w) ∈ (compute_diff A B).upgraded ↔
      pkg.version = w ∧
      A.lookup pkg.name = some o ∧ B.lookup pkg.name = some w ∧ o ≠ w ∧
      version_compare w o = true := by
  rw [upgraded_eq]
  constructor
  · intro h
    rcases List.mem_map.mp h with ⟨t, htf, hmk⟩
    rcases List.mem_filter.mp htf with ⟨htc, hcmp⟩
    obtain ⟨tn, tv1, tv2⟩ := t
    injection hmk with e1 hrest
    injection hrest with e2 e3
    subst e1
    subst e2
    subst e3
    rcases (commonChanged_mem_iff hA).mp htc with ⟨h1, h2, h3⟩
    exact ⟨rfl, h1, h2, h3, hcmp⟩
  · rintro ⟨hver, h1, h2, h3, hcmp⟩
    refine List.mem_map.mpr ⟨(pkg.name, o, w), ?_, ?_⟩
    · exact List.mem_filter.mpr ⟨(commonChanged_mem_iff hA).mpr ⟨h1, h2, h3⟩, hcmp⟩
    · cases pkg
      simp only at hver
      simp [hver]

theorem mem_downgraded_iff {A B : PkgMap} (hA : (keys A).Nodup)
    {pkg : Package} {o w : String} :
    (pkg, o, w) ∈ (compute_diff A B).downgraded ↔
      pkg.version = w ∧
      A.lookup pkg.name = some o ∧ B.lookup pkg.name = some w ∧ o ≠ w ∧
      version_compare w o = false := by
  rw [downgraded_eq]
  constructor
  · intro h
    rcases List.mem_map.mp h with ⟨t, htf, hmk⟩
    rcases List.mem_filter.mp htf with ⟨htc, hcmp⟩
    obtain ⟨tn, tv1, tv2⟩ := t
    injection hmk with e1 hrest
    injection hrest with e2 e3
    subst e1
    subst e2
    subst e3
    rcases (commonChanged_mem_iff hA).mp htc with ⟨h1, h2, h3⟩
    refine ⟨rfl, h1, h2, h3, ?_⟩
    simpa using hcmp
  · rintro ⟨hver, h1, h2, h3, hcmp⟩
    refine List.mem_map.mpr ⟨(pkg.name, o, w), ?_, ?_⟩
    · refine List.mem_filter.mpr ⟨(commonChanged_mem_iff hA).mpr ⟨h1, h2, h3⟩, ?_⟩
      simpa using hcmp
    · cases pkg
      simp only at hver
      simp [hver]

theorem mem_upgraded_name {A B : PkgMap} (hA : (keys A).Nodup) {n : String} :
    n ∈ (compute_diff A B).upgraded.map (fun t => t.1.name) ↔
      ∃ v1 v2, A.lookup n = some v1 ∧ B.lookup n = some v2 ∧ v1 ≠ v2 ∧
        version_compare v2 v1 = true := by
  constructor
  · intro h
    rcases List.mem_map.mp h with ⟨t, htmem, hname⟩
    obtain ⟨pkg, o, w⟩ := t
    rcases (mem_upgraded_iff hA).mp htmem with ⟨hver, h1, h2, h3, hcmp⟩
    simp only at hname
    subst hname
    exact ⟨o, w, h1, h2, h3, hcmp⟩
  · rintro ⟨v1, v2, h1, h2, h3, hcmp⟩
    refine List.mem_map.mpr ⟨({ name := n, version := v2 }, v1, v2), ?_, rfl⟩
    exact (mem_upgraded_iff hA).mpr ⟨rfl, h1, h2, h3, hcmp⟩

theorem mem_downgraded_name {A B : PkgMap} (hA : (keys A).Nodup) {n : String} :
    n ∈ (compute_diff A B).downgraded.map (fun t => t.1.name) ↔
      ∃ v1 v2, A.lookup n = some v1 ∧ B.lookup n = some v2 ∧ v1 ≠ v2 ∧
        version_compare v2 v1 = false := by
  constructor
  · intro h
    rcases List.mem_map.mp h with ⟨t, htmem, hname⟩
    obtain ⟨pkg, o, w⟩ := t
    rcases (mem_downgraded_iff hA).mp htmem with ⟨hver, h1, h2, h3, hcmp⟩
    simp only at hname
    subst hname
    exact ⟨o, w, h1, h2, h3, hcmp⟩
  · rintro ⟨v1, v2, h1, h2, h3, hcmp⟩
    refine List.mem_map.mpr ⟨({ name := n, version := v2 }, v1, v2), ?_, rfl⟩
    exact (mem_downgraded_iff hA).mpr ⟨rfl, h1, h2, h3, hcmp⟩

/-! ## Bisection loop lemmas -/

theorem bisectLoopF_finds {k : Nat} (fuel : Nat) :
    ∀ (low high mid : Nat), high - low ≤ fuel → low ≤ k → k < high →
      ((bisectLoopF (fun m => decide (k < m)) fuel low high mid).1).1 = k := by
  induction fuel with
  | zero =>
    intro low high mid hfuel hlow hhigh
    simp only [bisectLoopF]
    omega
  | succ fuel ih =>
    intro low high mid hfuel hlow hhigh
    simp only [bisectLoopF]
    by_cases hcond : low < high - 1
    · rw [if_pos hcond]
      by_cases hk : k < (low + high) / 2
      · rw [if_pos (decide_eq_true hk)]
        exact ih low ((low + high) / 2) ((low + high) / 2) (by omega) hlow hk
      · rw [if_neg (by simpa using hk)]
        exact ih ((low + high) / 2) high ((low + high) / 2) (by omega) (by omega) hhigh
    · rw [if_neg hcond]
      dsimp only
      omega

theorem bisectLoopF_final (oracle : Nat → Bool) (fuel : Nat) :
    ∀ (low high mid : Nat), high - low ≤ fuel → low < high →
      low ≤ ((bisectLoopF oracle fuel low high mid).1).1 ∧
      ((bisectLoopF oracle fuel low high mid).1).2.1 ≤ high ∧
      ((bisectLoopF oracle fuel low high mid).1).2.1 =
        ((bisectLoopF oracle fuel low high mid).1).1 + 1 := by
  induction fuel with
  | zero =>
    intro low high mid hfuel hlow
    simp only [bisectLoopF]
    omega
  | succ fuel ih =>
    intro low high mid hfuel hlow
    simp only [bisectLoopF]
    by_cases hcond : low < high - 1
    · rw [if_pos hcond]
      by_cases ho : oracle ((low + high) / 2) = true
      · rw [if_pos ho]
        have h := ih low ((low + high) / 2) ((low + high) / 2) (by omega) (by omega)
        dsimp only
        exact ⟨h.1, by omega, h.2.2⟩
      · rw [if_neg ho]
        have h := ih ((low + high) / 2) high ((low + high) / 2) (by omega) (by omega)
        dsimp only
        exact ⟨by omega, h.2.1, h.2.2⟩
    · rw [if_neg hcond]
      dsimp only
      omega

theorem bisectLoopF_steps (oracle : Nat → Bool) (fuel : Nat) :
    ∀ (low high mid : Nat), high - low ≤ fuel →
      (bisectLoopF oracle fuel low high mid).2 ≤ Nat.clog 2 (high - low) := by
  induction fuel with
  | zero =>
    intro low high mid hfuel
    simp [bisectLoopF]
  | succ fuel ih =>
    intro low high mid hfuel
    simp only [bisectLoopF]
    by_cases hcond : low < high - 1
    · rw [if_pos hcond]
      have hd : 2 ≤ high - low := by omega
      have hsplit : Nat.clog 2 (high - low) =
          Nat.clog 2 ((high - low + 1) / 2) + 1 := by
        have := Nat.clog_of_two_le (b := 2) (n := high - low) (by norm_num) hd
        simpa using this
      by_cases ho : oracle ((low + high) / 2) = true
      · rw [if_pos ho]
        have h1 := ih low ((low + high) / 2) ((low + high) / 2) (by omega)
        have h2 : Nat.clog 2 ((low + high) / 2 - low) ≤
            Nat.clog 2 ((high - low + 1) / 2) :=
          Nat.clog_mono_right 2 (by omega)
        dsimp only
        omega
      · rw [if_neg ho]
        have h1 := ih ((low + high) / 2) high ((low + high) / 2) (by omega)
        have h2 : Nat.clog 2 (high - (low + high) / 2) ≤
            Nat.clog 2 ((high - low + 1) / 2) :=
          Nat.clog_mono_right 2 (by omega)
        dsimp only
        omega
    · rw [if_neg hcond]
      simp

/-! ## Trace lemmas -/

theorem bisectTraceF_head (oracle : Nat → Bool) (fuel low high : Nat) :
    (bisectTraceF oracle fuel low high).head? = some (low, high) := by
  cases fuel with
  | zero => rfl
  | succ fuel =>
    simp only [bisectTraceF]
    by_cases hcond : low < high - 1
    · rw [if_pos hcond]
      rfl
    · rw [if_neg hcond]
      rfl

theorem bisectTraceF_ne_nil (oracle : Nat → Bool) (fuel low high : Nat) :
    bisectTraceF oracle fuel low high ≠ [] := by
  intro h
  have hh := bisectTraceF_head oracle fuel low high
  rw [h] at hh
  cases hh

theorem bisectTraceF_inv (oracle : Nat → Bool) (fuel : Nat) :
    ∀ (low high : Nat), low < high → ∀ p ∈ bisectTraceF oracle fuel low high,
      low ≤ p.1 ∧ p.1 < p.2 ∧ p.2 ≤ high := by
  induction fuel with
  | zero =>
    intro low high hlh p hp
    simp only [bisectTraceF, List.mem_singleton] at hp
    subst hp
    exact ⟨le_refl _, hlh, le_refl _⟩
  | succ fuel ih =>
    intro low high hlh p hp
    simp only [bisectTraceF] at hp
    by_cases hcond : low < high - 1
    · rw [if_pos hcond] at hp
      rcases List.mem_cons.mp hp with h | h
      · subst h
        exact ⟨le_refl _, hlh, le_refl _⟩
      · by_cases ho : oracle ((low + high) / 2) = true
        · rw [if_pos ho] at h
          have hs := ih low ((low + high) / 2) (by omega) p h
          exact ⟨hs.1, hs.2.1, by omega⟩
        · rw [if_neg ho] at h
          have hs := ih ((low + high) / 2) high (by omega) p h
          exact ⟨by omega, hs.2.1, hs.2.2⟩
    · rw [if_neg hcond] at hp
      simp only [List.mem_singleton] at hp
      subst hp
      exact ⟨le_refl _, hlh, le_refl _⟩

theorem bisectTraceF_chain (oracle : Nat → Bool) (fuel : Nat) :
    ∀ (low high : Nat),
      List.Chain' (fun a b : Nat × Nat => b.2 - b.1 < a.2 - a.1)
        (bisectTraceF oracle fuel low high) := by
  induction fuel with
  | zero =>
    intro low high
    simp [bisectTraceF]
  | succ fuel ih =>
    intro low high
    simp only [bisectTraceF]
    by_cases hcond : low < high - 1
    · rw [if_pos hcond, List.chain'_cons']
      constructor
      · intro y hy
        by_cases ho : oracle ((low + high) / 2) = true
        · rw [if_pos ho, bisectTraceF_head, Option.mem_some_iff] at hy
          subst hy
          dsimp only
          omega
        · rw [if_neg ho, bisectTraceF_head, Option.mem_some_iff] at hy
          subst hy
          dsimp only
          omega
      · by_cases ho : oracle ((low + high) / 2) = true
        · rw [if_pos ho]
          exact ih low ((low + high) / 2)
        · rw [if_neg ho]
          exact ih ((low + high) / 2) high
    · rw [if_neg hcond]
      simp

theorem bisectTraceF_dropLast (oracle : Nat → Bool) (fuel : Nat) :
    ∀ (low high : Nat), ∀ p ∈ (bisectTraceF oracle fuel low high).dropLast,
      1 < p.2 - p.1 := by
  induction fuel with
  | zero =>
    intro low high p hp
    simp [bisectTraceF] at hp
  | succ fuel ih =>
    intro low high p hp
    simp only [bisectTraceF] at hp
    by_cases hcond : low < high - 1
    · rw [if_pos hcond] at hp
      by_cases ho : oracle ((low + high) / 2) = true
      · rw [if_pos ho] at hp
        obtain ⟨r, rs, hrest⟩ :=
          List.exists_cons_of_ne_nil (bisectTraceF_ne_nil oracle fuel low ((low + high) / 2))
        rw [hrest, List.dropLast_cons₂] at hp
        rcases List.mem_cons.mp hp with h | h
        · subst h
          dsimp only
          omega
        · rw [← hrest] at h
          exact ih low ((low + high) / 2) p h
      · rw [if_neg ho] at hp
        obtain ⟨r, rs, hrest⟩ :=
          List.exists_cons_of_ne_nil (bisectTraceF_ne_nil oracle fuel ((low + high) / 2) high)
        rw [hrest, List.dropLast_cons₂] at hp
        rcases List.mem_cons.mp hp with h | h
        · subst h
          dsimp only
          omega
        · rw [← hrest] at h
          exact ih ((low + high) / 2) high p h
    · rw [if_neg hcond] at hp
      simp at hp

theorem bisectTraceF_getLast_loop (oracle : Nat → Bool) (fuel : Nat) :
    ∀ (low high mid : Nat),
      (bisectTraceF oracle fuel low high).getLast? =
        some (((bisectLoopF oracle fuel low high mid).1).1,
              ((bisectLoopF oracle fuel low high mid).1).2.1) := by
  induction fuel with
  | zero =>
    intro low high mid
    rfl
  | succ fuel ih =>
    intro low high mid
    simp only [bisectTraceF, bisectLoopF]
    by_cases hcond : low < high - 1
    · rw [if_pos hcond, if_pos hcond]
      by_cases ho : oracle ((low + high) / 2) = true
      · rw [if_pos ho, if_pos ho]
        obtain ⟨r, rs, hrest⟩ :=
          List.exists_cons_of_ne_nil (bisectTraceF_ne_nil oracle fuel low ((low + high) / 2))
        rw [hrest, List.getLast?_cons_cons, ← hrest]
        dsimp only
        exact ih low ((low + high) / 2) ((low + high) / 2)
      · rw [if_neg ho, if_neg ho]
        obtain ⟨r, rs, hrest⟩ :=
          List.exists_cons_of_ne_nil (bisectTraceF_ne_nil oracle fuel ((low + high) / 2) high)
        rw [hrest, List.getLast?_cons_cons, ← hrest]
        dsimp only
        exact ih ((low + high) / 2) high ((low + high) / 2)
    · rw [if_neg hcond, if_neg hcond]
      rfl

/-! ## Comparator characterisation lemmas -/

theorem zipCompare_self (l : List Nat) : zipCompare (l.zip l) = none := by
  induction l with
  | nil => rfl
  | cons a as ih =>
    rw [List.zip_cons_cons]
    simp only [zipCompare]
    rw [if_neg (lt_irrefl a), if_neg (lt_irrefl a)]
    exact ih

theorem zipCompare_lex (xs : List Nat) :
    ∀ ys : List Nat,
      ((match zipCompare (xs.zip ys) with
        | some r => r
        | none => decide (xs.length > ys.length)) = true) ↔ VerLt ys xs := by
  induction xs with
  | nil =>
    intro ys
    constructor
    · intro h
      simp [zipCompare] at h
    · intro h
      cases h
  | cons a as ih =>
    intro ys
    cases ys with
    | nil =>
      simp only [List.zip_nil_right, zipCompare]
      constructor
      · intro _
        exact VerLt.nil a as
      · intro _
        simp
    | cons b bs =>
      rw [List.zip_cons_cons]
      by_cases h1 : a > b
      · simp only [zipCompare, if_pos h1]
        constructor
        · intro _
          exact VerLt.head bs as h1
        · intro _
          trivial
      · by_cases h2 : a < b
        · simp only [zipCompare, if_neg h1, if_pos h2]
          constructor
          · intro h
            cases h
          · intro hv
            cases hv with
            | head as' bs' hba => omega
            | tail heq _ => omega
        · have heq : a = b := by omega
          subst heq
          simp only [zipCompare, if_neg h1, if_neg h2]
          have hih := ih bs
          cases hzc : zipCompare (as.zip bs) with
          | some r =>
            rw [hzc] at hih
            constructor
            · intro h
              exact VerLt.tail rfl (hih.mp h)
            · intro hv
              cases hv with
              | head as' bs' hba => omega
              | tail _ hsub => exact hih.mpr hsub
          | none =>
            rw [hzc] at hih
            simp only [List.length_cons]
            constructor
            · intro h
              refine VerLt.tail rfl (hih.mp ?_)
              simp only [decide_eq_true_eq, gt_iff_lt] at h ⊢
              omega
            · intro hv
              have hlen : (decide (as.length > bs.length)) = true := by
                cases hv with
                | head as' bs' hba => omega
                | tail _ hsub => exact hih.mpr hsub
              simp only [decide_eq_true_eq, gt_iff_lt] at hlen ⊢
              omega

theorem is_upgrade_iff_verlt (candidate baseline : String) :
    is_upgrade candidate baseline = true ↔
      VerLt (numericParts baseline) (numericParts candidate) :=
  zipCompare_lex (numericParts candidate) (numericParts baseline)

theorem version_compare_of_parts_eq {v1 v2 : String}
    (h : numericParts v1 = numericParts v2) : version_compare v2 v1 = false := by
  show (match zipCompare ((numericParts v2).zip (numericParts v1)) with
    | some r => r
    | none => decide ((numericParts v2).length > (numericParts v1).length)) = false
  rw [← h, zipCompare_self]
  simp

/-! ## run_manual unfolding -/

theorem run_manual_initSession (changes : List PackageChange) (oracle : Nat → Bool) :
    ((initSession changes).run_manual oracle).current_low =
      ((bisectLoop oracle 0 changes.length (changes.length / 2)).1).1 ∧
    ((initSession changes).run_manual oracle).found_culprit =
      changes.get? (((bisectLoop oracle 0 changes.length (changes.length / 2)).1).1) := by
  unfold BisectSession.run_manual initSession
  dsimp only
  by_cases h :
      ((bisectLoop oracle 0 changes.length (changes.length / 2)).1).1 < changes.length
  · rw [dif_pos h]
    exact ⟨rfl, (List.get?_eq_get h).symm⟩
  · rw [dif_neg h]
    refine ⟨rfl, ?_⟩
    rw [List.get?_eq_none.mpr (by omega)]

/-! ## Claim theorems -/

/-- Claim C1: for every change list of length N ≥ 1 and every fixed true
culprit index k in [0, N), running the bisection loop with the monotonic
oracle reproduces(mid) = (k < mid) terminates with changes[k] recorded as
the found culprit, and the loop consumes at most ⌈log2 N⌉ oracle answers
(stated with Nat.clog 2 N, the ceiling of the base-2 logarithm). -/
theorem bisect_finds_true_culprit (changes : List PackageChange) (k : Nat)
    (hk : k < changes.length) :
    ((initSession changes).run_manual (fun mid => decide (k < mid))).found_culprit
        = some (changes.get ⟨k, hk⟩) ∧
    (bisectLoop (fun mid => decide (k < mid)) 0 changes.length
        (changes.length / 2)).2 ≤ Nat.clog 2 changes.length := by
  have hrm := run_manual_initSession changes (fun mid => decide (k < mid))
  have hfind :
      ((bisectLoop (fun mid => decide (k < mid)) 0 changes.length
        (changes.length / 2)).1).1 = k :=
    bisectLoopF_finds changes.length 0 changes.length (changes.length / 2)
      (by omega) (Nat.zero_le k) hk
  constructor
  · rw [hrm.2, hfind]
    exact List.get?_eq_get hk
  · have hs := bisectLoopF_steps (fun mid => decide (k < mid))
      (changes.length - 0) 0 changes.length (changes.length / 2) (le_refl _)
    rw [Nat.sub_zero] at hs
    exact hs

/-- A concrete three-element change list used by the witnesses. -/
def demoChanges : List PackageChange :=
  [.Added { name := "alpha", version := "1.0" },
   .Upgraded { name := "beta", version := "2.1" } ("2.0") ("2.1"),
   .Removed { name := "gamma", version := "3.0" }]

/-- Witness for C1 at the concrete change list `demoChanges` and culprit
index 1. -/
theorem bisect_finds_true_culprit_witness :
    ((initSession demoChanges).run_manual (fun mid => decide (1 < mid))).found_culprit
        = some (demoChanges.get ⟨1, by decide⟩) ∧
    (bisectLoop (fun mid => decide (1 < mid)) 0 demoChanges.length
        (demoChanges.length / 2)).2 ≤ Nat.clog 2 demoChanges.length :=
  bisect_finds_true_culprit demoChanges 1 (by decide)

/-- Claim C4: throughout a session on N ≥ 1 changes the cursor states (all
recorded by the ghost trace) satisfy low < high ≤ N, high - low strictly
decreases with every oracle answer, every non-terminal state has
high - low > 1 (the loop exits exactly at high - low = 1), and the terminal
state (l, l + 1) has run_manual reporting changes[l] as the culprit. -/
theorem bisect_cursor_invariant (changes : List PackageChange)
    (oracle : Nat → Bool) (hne : changes ≠ []) :
    (∀ p ∈ bisectTrace oracle 0 changes.length,
        p.1 < p.2 ∧ p.2 ≤ changes.length) ∧
    List.Chain' (fun a b : Nat × Nat => b.2 - b.1 < a.2 - a.1)
      (bisectTrace oracle 0 changes.length) ∧
    (∀ p ∈ (bisectTrace oracle 0 changes.length).dropLast, 1 < p.2 - p.1) ∧
    (∃ l, (bisectTrace oracle 0 changes.length).getLast? = some (l, l + 1) ∧
      ((initSession changes).run_manual oracle).current_low = l ∧
      ((initSession changes).run_manual oracle).found_culprit =
        changes.get? l) := by
  have hN : 0 < changes.length := List.length_pos.mpr hne
  refine ⟨?_, ?_, ?_, ?_⟩
  · intro p hp
    have hi := bisectTraceF_inv oracle (changes.length - 0) 0 changes.length hN p hp
    exact ⟨hi.2.1, hi.2.2⟩
  · exact bisectTraceF_chain oracle (changes.length - 0) 0 changes.length
  · exact bisectTraceF_dropLast oracle (changes.length - 0) 0 changes.length
  · have hlast := bisectTraceF_getLast_loop oracle (changes.length - 0) 0
      changes.length (changes.length / 2)
    have hfin := bisectLoopF_final oracle (changes.length - 0) 0 changes.length
      (changes.length / 2) (le_refl _) hN
    refine ⟨((bisectLoopF oracle (changes.length - 0) 0 changes.length
      (changes.length / 2)).1).1, ?_, ?_, ?_⟩
    · rw [hfin.2.2] at hlast
      exact hlast
    · exact (run_manual_initSession changes oracle).1
    · exact (run_manual_initSession changes oracle).2

/-- Witness for C4 at the concrete change list `demoChanges` with the
always-false oracle. -/
theorem bisect_cursor_invariant_witness :
    (∀ p ∈ bisectTrace (fun _ => false) 0 demoChanges.length,
        p.1 < p.2 ∧ p.2 ≤ demoChanges.length) ∧
    List.Chain' (fun a b : Nat × Nat => b.2 - b.1 < a.2 - a.1)
      (bisectTrace (fun _ => false) 0 demoChanges.length) ∧
    (∀ p ∈ (bisectTrace (fun _ => false) 0 demoChanges.length).dropLast,
        1 < p.2 - p.1) ∧
    (∃ l, (bisectTrace (fun _ => false) 0 demoChanges.length).getLast? =
        some (l, l + 1) ∧
      ((initSession demoChanges).run_manual (fun _ => false)).current_low = l ∧
      ((initSession demoChanges).run_manual (fun _ => false)).found_culprit =
        demoChanges.get? l) :=
  bisect_cursor_invariant demoChanges (fun _ => false) (by decide)

/-- Claim C2: for any two well-formed package maps the name-sets of the four
diff collections are pairwise disjoint, their union is exactly the set of
names whose presence or version differs between the two maps (expressed as
the lookups differing), and total_changes is the sum of the four collection
sizes. -/
theorem compute_diff_partition (A B : PkgMap) (hA : (keys A).Nodup)
    (hB : (keys B).Nodup) :
    ((compute_diff A B).added.map Package.name).Disjoint
        ((compute_diff A B).removed.map Package.name) ∧
    ((compute_diff A B).added.map Package.name).Disjoint
        ((compute_diff A B).upgraded.map (fun t => t.1.name)) ∧
    ((compute_diff A B).added.map Package.name).Disjoint
        ((compute_diff A B).downgraded.map (fun t => t.1.name)) ∧
    ((compute_diff A B).removed.map Package.name).Disjoint
        ((compute_diff A B).upgraded.map (fun t => t.1.name)) ∧
    ((compute_diff A B).removed.map Package.name).Disjoint
        ((compute_diff A B).downgraded.map (fun t => t.1.name)) ∧
    ((compute_diff A B).upgraded.map (fun t => t.1.name)).Disjoint
        ((compute_diff A B).downgraded.map (fun t => t.1.name)) ∧
    (∀ n : String,
      (n ∈ (compute_diff A B).added.map Package.name ∨
       n ∈ (compute_diff A B).removed.map Package.name ∨
       n ∈ (compute_diff A B).upgraded.map (fun t => t.1.name) ∨
       n ∈ (compute_diff A B).downgraded.map (fun t => t.1.name)) ↔
      A.lookup n ≠ B.lookup n) ∧
    (compute_diff A B).total_changes =
      (compute_diff A B).added.length + (compute_diff A B).removed.length +
      (compute_diff A B).upgraded.length + (compute_diff A B).downgraded.length := by
  refine ⟨?_, ?_, ?_, ?_, ?_, ?_, ?_, rfl⟩
  · intro n h1 h2
    rcases mem_added_name.mp h1 with ⟨hB1, hA1⟩
    rcases mem_removed_name.mp h2 with ⟨hA2, hB2⟩
    exact hA1 hA2
  · intro n h1 h2
    rcases mem_added_name.mp h1 with ⟨hB1, hA1⟩
    rcases (mem_upgraded_name hA).mp h2 with ⟨v1, v2, ha, hb, hne, hc⟩
    exact hA1 ((lookup_isSome_iff A n).mp (by rw [ha]; rfl))
  · intro n h1 h2
    rcases mem_added_name.mp h1 with ⟨hB1, hA1⟩
    rcases (mem_downgraded_name hA).mp h2 with ⟨v1, v2, ha, hb, hne, hc⟩
    exact hA1 ((lookup_isSome_iff A n).mp (by rw [ha]; rfl))
  · intro n h1 h2
    rcases mem_removed_name.mp h1 with ⟨hA1, hB1⟩
    rcases (mem_upgraded_name hA).mp h2 with ⟨v1, v2, ha, hb, hne, hc⟩
    exact hB1 ((lookup_isSome_iff B n).mp (by rw [hb]; rfl))
  · intro n h1 h2
    rcases mem_removed_name.mp h1 with ⟨hA1, hB1⟩
    rcases (mem_downgraded_name hA).mp h2 with ⟨v1, v2, ha, hb, hne, hc⟩
    exact hB1 ((lookup_isSome_iff B n).mp (by rw [hb]; rfl))
  · intro n h1 h2
    rcases (mem_upgraded_name hA).mp h1 with ⟨v1, v2, ha, hb, hne, hc⟩
    rcases (mem_downgraded_name hA).mp h2 with ⟨v1', v2', ha', hb', hne', hc'⟩
    rw [ha] at ha'
    rw [hb] at hb'
    injection ha' with e1
    injection hb' with e2
    subst e1
    subst e2
    rw [hc] at hc'
    cases hc'
  · intro n
    constructor
    · intro h
      rcases h with h | h | h | h
      · rcases mem_added_name.mp h with ⟨h2, h1⟩
        have hnone := (lookup_eq_none_iff A n).mpr h1
        have hsome := (lookup_isSome_iff B n).mpr h2
        intro heq
        rw [hnone] at heq
        rw [← heq] at hsome
        simp at hsome
      · rcases mem_removed_name.mp h with ⟨h2, h1⟩
        have hnone := (lookup_eq_none_iff B n).mpr h1
        have hsome := (lookup_isSome_iff A n).mpr h2
        intro heq
        rw [hnone] at heq
        rw [heq] at hsome
        simp at hsome
      · rcases (mem_upgraded_name hA).mp h with ⟨v1, v2, ha, hb, hne, hc⟩
        intro heq
        rw [ha, hb] at heq
        injection heq with e
        exact hne e
      · rcases (mem_downgraded_name hA).mp h with ⟨v1, v2, ha, hb, hne, hc⟩
        intro heq
        rw [ha, hb] at heq
        injection heq with e
        exact hne e
    · intro hne
      cases hA' : A.lookup n with
      | none =>
        cases hB' : B.lookup n with
        | none =>
          rw [hA', hB'] at hne
          exact absurd rfl hne
        | some v2 =>
          left
          exact mem_added_name.mpr ⟨(lookup_isSome_iff B n).mp (by rw [hB']; rfl),
            (lookup_eq_none_iff A n).mp hA'⟩
      | some v1 =>
        cases hB' : B.lookup n with
        | none =>
          right; left
          exact mem_removed_name.mpr ⟨(lookup_isSome_iff A n).mp (by rw [hA']; rfl),
            (lookup_eq_none_iff B n).mp hB'⟩
        | some v2 =>
          have hv : v1 ≠ v2 := by
            intro he
            rw [hA', hB', he] at hne
            exact hne rfl
          cases hvc : version_compare v2 v1 with
          | false =>
            right; right; right
            exact (mem_downgraded_name hA).mpr ⟨v1, v2, hA', hB', hv, hvc⟩
          | true =>
            right; right; left
            exact (mem_upgraded_name hA).mpr ⟨v1, v2, hA', hB', hv, hvc⟩

/-- Concrete package map used by the witnesses: against demoB below,
"beta" changes version, "alpha" is removed and "gamma" is added. -/
def demoA : PkgMap := [("alpha", "1.0"), ("beta", "2.0")]

/-- Second concrete package map for the witnesses. -/
def demoB : PkgMap := [("beta", "1.5"), ("gamma", "3.0")]

/-- Witness for C2 at the concrete maps demoA and demoB. -/
theorem compute_diff_partition_witness :
    ((compute_diff demoA demoB).added.map Package.name).Disjoint
        ((compute_diff demoA demoB).removed.map Package.name) ∧
    ((compute_diff demoA demoB).added.map Package.name).Disjoint
        ((compute_diff demoA demoB).upgraded.map (fun t => t.1.name)) ∧
    ((compute_diff demoA demoB).added.map Package.name).Disjoint
        ((compute_diff demoA demoB).downgraded.map (fun t => t.1.name)) ∧
    ((compute_diff demoA demoB).removed.map Package.name).Disjoint
        ((compute_diff demoA demoB).upgraded.map (fun t => t.1.name)) ∧
    ((compute_diff demoA demoB).removed.map Package.name).Disjoint
        ((compute_diff demoA demoB).downgraded.map (fun t => t.1.name)) ∧
    ((compute_diff demoA demoB).upgraded.map (fun t => t.1.name)).Disjoint
        ((compute_diff demoA demoB).downgraded.map (fun t => t.1.name)) ∧
    (∀ n : String,
      (n ∈ (compute_diff demoA demoB).added.map Package.name ∨
       n ∈ (compute_diff demoA demoB).removed.map Package.name ∨
       n ∈ (compute_diff demoA demoB).upgraded.map (fun t => t.1.name) ∨
       n ∈ (compute_diff demoA demoB).downgraded.map (fun t => t.1.name)) ↔
      demoA.lookup n ≠ demoB.lookup n) ∧
    (compute_diff demoA demoB).total_changes =
      (compute_diff demoA demoB).added.length +
      (compute_diff demoA demoB).removed.length +
      (compute_diff demoA demoB).upgraded.length +
      (compute_diff demoA demoB).downgraded.length :=
  compute_diff_partition demoA demoB (by decide) (by decide)

/-- Claim C8: diffing a well-formed map against itself yields four empty
collections (and the model compute_diff is total, so it never fails). -/
theorem compute_diff_self (A : PkgMap) (hA : (keys A).Nodup) :
    (compute_diff A A).added = [] ∧ (compute_diff A A).removed = [] ∧
    (compute_diff A A).upgraded = [] ∧ (compute_diff A A).downgraded = [] := by
  have hcommon : commonChanged A A = [] := by
    simp only [commonChanged]
    rw [List.filterMap_eq_nil_iff]
    intro p hp
    have hl : A.lookup p.1 = some p.2 := mem_lookup hA hp
    show (match A.lookup p.1 with
      | some ver2 => if p.2 = ver2 then none else some (p.1, p.2, ver2)
      | none => none) = none
    rw [hl]
    exact if_pos rfl
  have hfilter : A.filter (fun p => (A.lookup p.1).isNone) = [] := by
    rw [List.filter_eq_nil_iff]
    intro p hp
    have hsome : (A.lookup p.1).isSome = true :=
      (lookup_isSome_iff A p.1).mpr (mem_keys.mpr ⟨p.2, hp⟩)
    cases h : A.lookup p.1 with
    | none =>
      rw [h] at hsome
      cases hsome
    | some v =>
      simp
  refine ⟨?_, ?_, ?_, ?_⟩
  · rw [added_eq, hfilter]
    rfl
  · rw [removed_eq, hfilter]
    rfl
  · rw [upgraded_eq, hcommon]
    rfl
  · rw [downgraded_eq, hcommon]
    rfl

/-- Witness for C8 at the concrete map demoA. -/
theorem compute_diff_self_witness :
    (compute_diff demoA demoA).added = [] ∧
    (compute_diff demoA demoA).removed = [] ∧
    (compute_diff demoA demoA).upgraded = [] ∧
    (compute_diff demoA demoA).downgraded = [] :=
  compute_diff_self demoA (by decide)

/-- Claim C10: a name present in both maps whose version strings differ but
whose numeric token sequences are equal is always classified Downgraded
(with old = A's version and new = B's version) and never Upgraded. -/
theorem equal_parts_classified_downgraded (A B : PkgMap)
    (hA : (keys A).Nodup) (hB : (keys B).Nodup) (n v1 v2 : String)
    (h1 : A.lookup n = some v1) (h2 : B.lookup n = some v2) (hne : v1 ≠ v2)
    (hparts : numericParts v1 = numericParts v2) :
    (({ name := n, version := v2 } : Package), v1, v2) ∈
        (compute_diff A B).downgraded ∧
    ∀ t ∈ (compute_diff A B).upgraded, t.1.name ≠ n := by
  have hvc : version_compare v2 v1 = false := version_compare_of_parts_eq hparts
  constructor
  · exact (mem_downgraded_iff hA).mpr ⟨rfl, h1, h2, hne, hvc⟩
  · intro t ht hteq
    obtain ⟨pkg, o, w⟩ := t
    rcases (mem_upgraded_iff hA).mp ht with ⟨hver, ha, hb, hnew, hcmp⟩
    dsimp only at hteq
    rw [hteq] at ha hb
    rw [h1] at ha
    rw [h2] at hb
    injection ha with e1
    injection hb with e2
    rw [← e1, ← e2] at hcmp
    rw [hvc] at hcmp
    cases hcmp

/-- Witness for C10: versions "1.0-rc1" and "1.0-rc2" differ as strings but
have equal numeric token sequences, so the change lands in downgraded. -/
theorem equal_parts_classified_downgraded_witness :
    (({ name := "pkg", version := "1.0-rc2" } : Package), "1.0-rc1", "1.0-rc2") ∈
        (compute_diff ([(("pkg" : String), ("1.0-rc1" : String))])
          ([(("pkg" : String), ("1.0-rc2" : String))])).downgraded ∧
    ∀ t ∈ (compute_diff ([(("pkg" : String), ("1.0-rc1" : String))])
          ([(("pkg" : String), ("1.0-rc2" : String))])).upgraded,
      t.1.name ≠ "pkg" :=
  equal_parts_classified_downgraded _ _ (by decide) (by decide) "pkg"
    ("1.0-rc1") ("1.0-rc2") (by decide) (by decide) (by decide) (by decide)

/-- Claim C5: constructing a BisectSession fails immediately with the
empty-change-set error (the source's anyhow bail carrying this message is
its EmptyChangeSet error) exactly when the diff between the two snapshots
linearizes to zero changes, and succeeds (with the freshly initialised
session) whenever the change list is non-empty. -/
theorem new_empty_changeset (good bad : PkgMap) :
    ((compute_diff good bad).all_changes = [] →
      BisectSession.new good bad =
        Except.error ("No package changes detected between snapshots")) ∧
    ((compute_diff good bad).all_changes ≠ [] →
      BisectSession.new good bad =
        Except.ok (initSession ((compute_diff good bad).all_changes))) := by
  constructor
  · intro h
    unfold BisectSession.new
    rw [if_pos (by rw [List.isEmpty_iff]; exact h)]
  · intro h
    unfold BisectSession.new
    rw [if_neg (by rw [List.isEmpty_iff]; exact h)]

/-- Witness for C5: identical maps give the error, and a genuinely changed
pair of maps gives a session. -/
theorem new_empty_changeset_witness :
    BisectSession.new demoA demoA =
      Except.error ("No package changes detected between snapshots") ∧
    BisectSession.new demoA demoB =
      Except.ok (initSession ((compute_diff demoA demoB).all_changes)) :=
  ⟨(new_empty_changeset demoA demoA).1 (by decide),
   (new_empty_changeset demoA demoB).2 (by decide)⟩

/-- Claim C7: all_changes is the concatenation of the four collections in
the fixed order added, removed, upgraded, downgraded, each element converted
to the matching PackageChange variant with the same package and versions,
and its length is total_changes. -/
theorem all_changes_concat (d : PackageDiff) :
    d.all_changes =
      d.added.map PackageChange.Added ++ d.removed.map PackageChange.Removed ++
      d.upgraded.map (fun t => PackageChange.Upgraded t.1 t.2.1 t.2.2) ++
      d.downgraded.map (fun t => PackageChange.Downgraded t.1 t.2.1 t.2.2) ∧
    d.all_changes.length = d.total_changes := by
  have hpush : ∀ {α : Type} (f : α → PackageChange) (l : List α)
      (init : List PackageChange),
      l.foldl (fun cs x => cs ++ [f x]) init = init ++ l.map f := by
    intro α f l
    induction l with
    | nil => intro init; simp
    | cons x xs ih =>
      intro init
      rw [List.foldl_cons, ih, List.map_cons]
      simp
  have key : d.all_changes =
      d.added.map PackageChange.Added ++ d.removed.map PackageChange.Removed ++
      d.upgraded.map (fun t => PackageChange.Upgraded t.1 t.2.1 t.2.2) ++
      d.downgraded.map (fun t => PackageChange.Downgraded t.1 t.2.1 t.2.2) := by
    simp only [PackageDiff.all_changes]
    rw [hpush, hpush, hpush, hpush]
    simp [List.append_assoc]
  refine ⟨key, ?_⟩
  rw [key]
  simp only [List.length_append, List.length_map, PackageDiff.total_changes]

/-- Claim C6: candidate_actions (get_fix_options in the source) is the pure
deterministic per-kind table of the spec, always ending with ReportBug then
DoNothing, and for an Upgraded change it begins with Downgrade to the old
version. -/
theorem candidate_actions_table :
    (∀ change : PackageChange, get_fix_options change = claimed_actions change) ∧
    (∀ (pkg : Package) (old_ver new_ver : String),
      (get_fix_options (.Upgraded pkg old_ver new_ver)).head? =
        some (.Downgrade pkg.name old_ver)) := by
  constructor
  · intro change
    cases change <;> rfl
  · intro pkg o w
    rfl

/-- Counterexample to claim C3 as stated: the claim says every token that
parses as a non-negative integer of any magnitude is kept, but the source
parses tokens as u32, so the token 4294967296 (= 2^32) is discarded.  The
claimed comparator calls "1.4294967296" an upgrade over "1.2"; the code does
not. -/
theorem claim_any_magnitude_counterexample :
    claim_is_upgrade ("1.4294967296") ("1.2") = true ∧
    is_upgrade ("1.4294967296") ("1.2") = false := by
  constructor
  · decide
  · decide

/-- Claim C3 (amended): is_upgrade tokenizes on '.', '-', '_', keeps the
tokens that parse as non-negative integers fitting in 32 unsigned bits
(larger values are discarded like non-numeric tokens), and orders the token
sequences exactly as the spec describes — first differing pair decides,
strictly longer wins at an all-equal prefix (the order VerLt) — never
failing; the four concrete examples of the claim all hold. -/
theorem is_upgrade_characterisation :
    (∀ candidate baseline : String,
      is_upgrade candidate baseline = true ↔
        VerLt (numericParts baseline) (numericParts candidate)) ∧
    is_upgrade ("2.0") ("1.9") = true ∧
    is_upgrade ("1.9") ("2.0") = false ∧
    is_upgrade ("1.2.0") ("1.2") = true ∧
    is_upgrade ("1.0-rc1") ("1.0") = false :=
  ⟨is_upgrade_iff_verlt, by decide, by decide, by decide, by decide⟩

/-- Counterexample to claim C9 as stated: on the concrete session over
demoChanges the manual engine run with an oracle reaches a Found culprit,
while run_automated never runs the loop at all — it fails unconditionally —
so the automated strategy does not reach the same Found(index) result. -/
theorem automated_oracle_counterexample :
    ((initSession demoChanges).run_manual (fun _ => true)).found_culprit =
      some (.Added { name := "alpha", version := "1.0" }) ∧
    (initSession demoChanges).run_automated =
      Except.error ("Automated bisect requires Premium license") := by
  constructor
  · decide
  · rfl

/-- Claim C9 (amended): the engine loop itself is oracle-agnostic — the
outcome of run_manual depends only on the boolean answers, not on which
oracle produced them — but the automated strategy is not an implementation
of the oracle capability: run_automated fails unconditionally with the
premium-license error for every session and never produces a culprit. -/
theorem run_automated_always_fails :
    (∀ s : BisectSession, s.run_automated =
      Except.error ("Automated bisect requires Premium license")) ∧
    (∀ (s : BisectSession) (o1 o2 : Nat → Bool), (∀ m, o1 m = o2 m) →
      s.run_manual o1 = s.run_manual o2) := by
  constructor
  · intro s
    rfl
  · intro s o1 o2 h
    rw [funext h]

/-- Witness for the amended C9 at a concrete session and pair of equal
oracles. -/
theorem run_automated_always_fails_witness :
    (initSession demoChanges).run_automated =
      Except.error ("Automated bisect requires Premium license") ∧
    (initSession demoChanges).run_manual (fun _ => true) =
      (initSession demoChanges).run_manual (fun m => decide (m ≤ m)) :=
  ⟨run_automated_always_fails.1 (initSession demoChanges),
   run_automated_always_fails.2 (initSession demoChanges) (fun _ => true)
     (fun m => decide (m ≤ m)) (fun m => by simp)⟩

end EshuTrace
